import Mathlib

set_option maxHeartbeats 1000000

/-!
Verification of the game core of a noughts-and-crosses program
(source file src/main.rs).

The embedding covers the cell type Tile, the Board state with its
clear, play_move and winning operations, the piece labelling, and the
session state machine driven by the button_system function.  UI
construction, rendering, colours and asset handling are not modelled.

The random shuffle of the opponent move list is modelled as an explicit
function parameter shuffle; the real generator always produces a
permutation of its input, which appears in theorems as the hypothesis
that shuffle l is a permutation of l.  Array indexing that can panic in
the source is modelled with Option, where none stands for a panic.
-/

/-- Source enum Tile, with variants X, O and Empty.  O is the tile placed
for the human player by play_move, X the tile placed for the automatic
opponent. -/
inductive Tile where
  | X
  | O
  | Empty
deriving DecidableEq, Fintype

/-- Source method Tile::is_empty. -/
def Tile.is_empty (t : Tile) : Bool :=
  match t with
  | Tile.Empty => true
  | _ => false

/-- Source method Tile::piece, the glyph shown for a tile. -/
def Tile.piece (t : Tile) : String :=
  match t with
  | Tile.X => "X"
  | Tile.O => "O"
  | Tile.Empty => ""

/-- Source struct Board.  The entities field of the source struct stores
UI entity ids only and never influences the game state, so it is omitted.
The moves field is a u8 in the source; it is modelled as Nat, which agrees
with u8 on all states where moves stays below 255 (in every reachable
state moves is at most 9).  The tiles field is the 9-cell array; the
length-9 condition appears as an explicit hypothesis where needed. -/
structure Board where
  moves : Nat
  tiles : List Tile
deriving DecidableEq

/-- Reading one tile, the source expression self.tiles at index i.  The
source panics out of bounds; every call site below reads indices 0..8 of
the 9-cell array, where getD equals the exact array read. -/
def tileAt (b : Board) (i : Nat) : Tile :=
  b.tiles.getD i Tile.Empty

/-- Writing one tile, the source assignment storing t into self.tiles at
index i.  All writes performed by the source are in bounds. -/
def placeTile (b : Board) (i : Nat) (t : Tile) : Board :=
  { b with tiles := b.tiles.set i t }

/-- Source method Board::clear: set moves to 0 and overwrite every tile
in place with Empty. -/
def Board.clear (b : Board) : Board :=
  { b with moves := 0, tiles := b.tiles.map (fun _ => Tile.Empty) }

/-- Source method Board::winning: for each player O and X, scan the three
columns (indices i, i+3, i+6) and three rows (indices 3i, 3i+1, 3i+2) for
i in 0..3, then the two diagonals, returning true on the first line fully
occupied by that player. -/
def winning (b : Board) : Bool :=
  [Tile.O, Tile.X].any (fun player =>
    ((List.range 3).any (fun i =>
      ([0, 3, 6].all (fun j => tileAt b (i + j) == player)) ||
      ([0, 1, 2].all (fun j => tileAt b (i * 3 + j) == player)))) ||
    ([0, 4, 8].all (fun i => tileAt b i == player)) ||
    ([2, 4, 6].all (fun i => tileAt b i == player)))

/-- The vector possible_moves built by Board::play_move: all indices in
0..=8 whose tile is currently Empty, in increasing order (the order the
source collects them in, before shuffling). -/
def possible_moves (b : Board) : List Nat :=
  (List.range 9).filter (fun i => (tileAt b i).is_empty)

/-- Source method Board::play_move.  The shuffle parameter models the
call possible_moves.shuffle(rng); the source then reads element 0 of the
shuffled vector, which panics when the vector is empty, modelled by the
none branch of head?.  Reading self.tiles at index panics out of bounds,
modelled by the none branch of the first match. -/
def play_move (shuffle : List Nat → List Nat) (b : Board) (index : Nat) :
    Option (Board × Bool) :=
  match b.tiles[index]? with
  | none => none
  | some t =>
    if t.is_empty then
      let b1 := placeTile b index Tile.O
      if winning b1 then
        some (b1, true)
      else
        let b2 : Board := { b1 with moves := b1.moves + 1 }
        if b2.moves < 8 then
          let b3 : Board := { b2 with moves := b2.moves + 1 }
          match (shuffle (possible_moves b3)).head? with
          | none => none
          | some j =>
            let b4 := placeTile b3 j Tile.X
            if winning b4 then some (b4, true) else some (b4, b4.moves == 9)
        else
          some (b2, b2.moves == 9)
    else
      some (b, b.moves == 9)

/-- Source enum GameState, the session phase. -/
inductive GameState where
  | Menu
  | Playing
  | GameOver
deriving DecidableEq

/-- Source enum ButtonCommand, the component identifying each button. -/
inductive ButtonCommand where
  | Play
  | Quit
  | Grid (index : Nat)

/-- The mutable session data accessed by the source system button_system:
the phase resource State of GameState together with the Board resource. -/
structure Session where
  state : GameState
  board : Board
deriving DecidableEq

/-- One Clicked interaction processed by the source system button_system.
The framework call state.set fails with an AlreadyInState error when its
argument equals the current state, and the source unwraps that result, so
the Play arm panics when the phase is already Playing (the board has been
cleared by then, but the panic aborts the dispatch); a panic is modelled
as none.  The returned Bool records whether an AppExit event was sent
(the Quit arm).  Button colour updates and the tile label refresh are
rendering only and are not modelled.  The source guard on the Grid arm
short-circuits, so the tile read at index only happens in phase
Playing. -/
def button_click (shuffle : List Nat → List Nat) (s : Session)
    (cmd : ButtonCommand) : Option (Session × Bool) :=
  match cmd with
  | ButtonCommand.Play =>
      if s.state = GameState.Playing then none
      else some ({ state := GameState.Playing, board := s.board.clear }, false)
  | ButtonCommand.Quit => some (s, true)
  | ButtonCommand.Grid index =>
      if s.state = GameState.Playing then
        match s.board.tiles[index]? with
        | none => none
        | some t =>
          if t = Tile.Empty then
            match play_move shuffle s.board index with
            | none => none
            | some (b, r) =>
              if r then
                some ({ state := GameState.GameOver, board := b }, false)
              else
                some ({ state := GameState.Playing, board := b }, false)
          else some (s, false)
      else some (s, false)

/-- The board created at startup by the FromWorld instance for Board:
moves 0 and all nine tiles Empty. -/
def initBoard : Board :=
  { moves := 0, tiles := List.replicate 9 Tile.Empty }

/-- Number of non-Empty cells of a board, the quantity the specification
calls the number of cells filled so far. -/
def countNonEmpty (b : Board) : Nat :=
  b.tiles.countP (fun t => !t.is_empty)

/-- Board states reachable by any sequence of Board::clear and
Board::play_move calls from the initial board, where every opponent
shuffle is a genuine permutation of its input (as the source random
shuffle is). -/
inductive Reachable : Board → Prop where
  | init : Reachable initBoard
  | clear {b : Board} : Reachable b → Reachable b.clear
  | play {b b' : Board} {r : Bool} (shuffle : List Nat → List Nat) (i : Nat)
      (hs : ∀ l, (shuffle l).Perm l)
      (hb : Reachable b) (hp : play_move shuffle b i = some (b', r)) :
      Reachable b'

/-- The eight winning lines: three rows, three columns, two diagonals. -/
def winLines : List (List Nat) :=
  [[0, 1, 2], [3, 4, 5], [6, 7, 8],
   [0, 3, 6], [1, 4, 7], [2, 5, 8],
   [0, 4, 8], [2, 4, 6]]

/-- Statement of the specification's win condition: some line among the
eight is entirely occupied by a single player. -/
def hasWinLine (b : Board) : Prop :=
  ∃ line ∈ winLines, ∃ p, (p = Tile.O ∨ p = Tile.X) ∧ ∀ j ∈ line, tileAt b j = p

/-! Basic facts about tiles, tile reads and tile writes. -/

theorem Tile.is_empty_iff {t : Tile} : t.is_empty = true ↔ t = Tile.Empty := by
  cases t <;> simp [Tile.is_empty]

theorem placeTile_moves (b : Board) (i : Nat) (t : Tile) :
    (placeTile b i t).moves = b.moves := rfl

theorem placeTile_length (b : Board) (i : Nat) (t : Tile) :
    (placeTile b i t).tiles.length = b.tiles.length :=
  List.length_set b.tiles i t

theorem tileAt_moves_irrel (b : Board) (m j : Nat) :
    tileAt { b with moves := m } j = tileAt b j := rfl

theorem winning_moves_irrel (b : Board) (m : Nat) :
    winning { b with moves := m } = winning b := rfl

theorem possible_moves_moves_irrel (b : Board) (m : Nat) :
    possible_moves { b with moves := m } = possible_moves b := rfl

theorem countNonEmpty_moves_irrel (b : Board) (m : Nat) :
    countNonEmpty { b with moves := m } = countNonEmpty b := rfl

theorem placeTile_moves_comm (b : Board) (m i : Nat) (t : Tile) :
    placeTile { b with moves := m } i t = { placeTile b i t with moves := m } := rfl

theorem tileAt_placeTile_ne {b : Board} {i j : Nat} (t : Tile) (h : j ≠ i) :
    tileAt (placeTile b i t) j = tileAt b j := by
  simp [tileAt, placeTile, List.getD_eq_getElem?_getD, List.getElem?_set_ne (Ne.symm h)]

theorem tileAt_placeTile_self {b : Board} {i : Nat} (t : Tile)
    (h : i < b.tiles.length) : tileAt (placeTile b i t) i = t := by
  simp [tileAt, placeTile, List.getD_eq_getElem?_getD, List.getElem?_set_self h]

theorem tileAt_of_getElem? {b : Board} {i : Nat} {t : Tile}
    (h : b.tiles[i]? = some t) : tileAt b i = t := by
  simp [tileAt, List.getD_eq_getElem?_getD, h]

theorem getElem?_tiles_of_empty {b : Board} {i : Nat} (hlen : b.tiles.length = 9)
    (hi : i < 9) (hemp : tileAt b i = Tile.Empty) : b.tiles[i]? = some Tile.Empty := by
  have h : i < b.tiles.length := by omega
  rw [List.getElem?_eq_getElem h]
  rw [tileAt, List.getD_eq_getElem _ _ h] at hemp
  rw [hemp]

theorem index_lt_of_getElem? {b : Board} {i : Nat} {t : Tile}
    (h : b.tiles[i]? = some t) : i < b.tiles.length := by
  by_contra hc
  rw [List.getElem?_eq_none (by omega)] at h
  cases h

/-! Counting non-empty cells. -/

theorem countP_set_of_not {α : Type} (p : α → Bool) (l : List α) (i : Nat) (b : α)
    (h : i < l.length) (hpi : p (l.get ⟨i, h⟩) = false) (hb : p b = true) :
    (l.set i b).countP p = l.countP p + 1 := by
  induction l generalizing i with
  | nil => simp at h
  | cons a t ih =>
    cases i with
    | zero =>
      simp only [List.get] at hpi
      simp [List.set, List.countP_cons, hpi, hb]
    | succ n =>
      have hn : n < t.length := by simpa using h
      have hpi' : p (t.get ⟨n, hn⟩) = false := hpi
      simp [List.set, List.countP_cons, ih n hn hpi']
      omega

theorem countNonEmpty_le (b : Board) : countNonEmpty b ≤ b.tiles.length :=
  List.countP_le_length _

theorem countNonEmpty_placeTile {b : Board} {i : Nat} {t : Tile}
    (h : i < b.tiles.length) (hemp : tileAt b i = Tile.Empty) (ht : t ≠ Tile.Empty) :
    countNonEmpty (placeTile b i t) = countNonEmpty b + 1 := by
  have hget : b.tiles.get ⟨i, h⟩ = Tile.Empty := by
    rw [tileAt, List.getD_eq_getElem _ _ h] at hemp
    rw [List.get_eq_getElem]
    exact hemp
  refine countP_set_of_not _ _ _ _ h ?_ ?_
  · rw [hget]; rfl
  · cases t <;> simp_all [Tile.is_empty]

/-! The list of open cells. -/

theorem mem_possible_moves {b : Board} {j : Nat} :
    j ∈ possible_moves b ↔ j < 9 ∧ tileAt b j = Tile.Empty := by
  simp [possible_moves, List.mem_filter, List.mem_range, Tile.is_empty_iff]

theorem possible_moves_ne_nil {b : Board} (hlen : b.tiles.length = 9)
    (hcount : countNonEmpty b < 9) : possible_moves b ≠ [] := by
  intro hnil
  have hall : ∀ j ∈ List.range 9, ¬ ((tileAt b j).is_empty = true) := by
    rw [possible_moves, List.filter_eq_nil_iff] at hnil
    exact hnil
  have hfull : countNonEmpty b = 9 := by
    rw [countNonEmpty, ← hlen]
    refine List.countP_eq_length.mpr ?_
    intro a ha
    obtain ⟨⟨n, hn⟩, hget⟩ := List.mem_iff_get.mp ha
    have h9 : n < 9 := by omega
    have hta : tileAt b n = a := by
      rw [tileAt, List.getD_eq_getElem _ _ hn, ← hget, List.get_eq_getElem]
    have hne := hall n (List.mem_range.mpr h9)
    rw [hta] at hne
    cases a <;> simp_all [Tile.is_empty]
  omega

theorem shuffle_head_mem {shuffle : List Nat → List Nat}
    (hs : ∀ l, (shuffle l).Perm l) {l : List Nat} (hl : l ≠ []) :
    ∃ j, (shuffle l).head? = some j ∧ j ∈ l := by
  cases hsh : shuffle l with
  | nil =>
    exact absurd (List.Perm.eq_nil (hsh ▸ hs l).symm) hl
  | cons a t =>
    refine ⟨a, rfl, ?_⟩
    have ha : a ∈ shuffle l := by rw [hsh]; exact List.mem_cons_self a t
    exact (hs l).mem_iff.mp ha

/-! Characterisation of Board::winning. -/

theorem winning_iff (b : Board) : winning b = true ↔ hasWinLine b := by
  have hr : List.range 3 = [0, 1, 2] := rfl
  simp only [winning, hasWinLine, winLines, hr, List.any_cons, List.any_nil,
    List.all_cons, List.all_nil, Bool.or_eq_true, Bool.and_eq_true, beq_iff_eq,
    List.mem_cons, List.not_mem_nil, List.forall_mem_cons, List.forall_mem_nil,
    and_true, or_false, false_or, exists_eq_or_imp, exists_eq_left,
    forall_eq_or_imp, forall_eq, Bool.false_eq_true,
    Nat.reduceAdd, Nat.reduceMul]
  constructor
  · rintro (((((h | h) | (h | h) | h | h) | h) | h) |
        ((((h | h) | (h | h) | h | h) | h) | h)) <;> simp [h]
  · rintro ((h | h) | (h | h) | (h | h) | (h | h) | (h | h) | (h | h) |
        (h | h) | (h | h)) <;> simp [h]

theorem winning_mono {b : Board} {i : Nat} {p : Tile}
    (hemp : tileAt b i = Tile.Empty) (hw : winning b = true) :
    winning (placeTile b i p) = true := by
  rw [winning_iff] at hw ⊢
  obtain ⟨line, hline, q, hq, hall⟩ := hw
  refine ⟨line, hline, q, hq, fun j hj => ?_⟩
  have hne : j ≠ i := by
    intro he
    have := hall j hj
    rw [he, hemp] at this
    rcases hq with hq | hq <;> rw [hq] at this <;> cases this
  rw [tileAt_placeTile_ne _ hne]
  exact hall j hj

theorem winning_of_place_false {b : Board} {i : Nat} {p : Tile}
    (hemp : tileAt b i = Tile.Empty) (hw : winning (placeTile b i p) = false) :
    winning b = false := by
  cases h : winning b
  · rfl
  · rw [winning_mono hemp h] at hw
    cases hw

/-! Execution-path equations for Board::play_move. -/

theorem play_move_oob {shuffle : List Nat → List Nat} {b : Board} {i : Nat}
    (h : b.tiles[i]? = none) : play_move shuffle b i = none := by
  simp [play_move, h]

theorem play_move_occupied {shuffle : List Nat → List Nat} {b : Board} {i : Nat}
    {t : Tile} (h : b.tiles[i]? = some t) (ht : t.is_empty = false) :
    play_move shuffle b i = some (b, b.moves == 9) := by
  simp [play_move, h, ht]

theorem play_move_human_win {shuffle : List Nat → List Nat} {b : Board} {i : Nat}
    (h : b.tiles[i]? = some Tile.Empty)
    (hw : winning (placeTile b i Tile.O) = true) :
    play_move shuffle b i = some (placeTile b i Tile.O, true) := by
  simp [play_move, h, Tile.is_empty, hw]

theorem play_move_no_opponent {shuffle : List Nat → List Nat} {b : Board} {i : Nat}
    (h : b.tiles[i]? = some Tile.Empty)
    (hw : winning (placeTile b i Tile.O) = false)
    (hm : ¬ (b.moves + 1 < 8)) :
    play_move shuffle b i =
      some ({ placeTile b i Tile.O with moves := b.moves + 1 }, (b.moves + 1) == 9) := by
  simp [play_move, h, Tile.is_empty, hw, hm, placeTile_moves, possible_moves_moves_irrel]

theorem play_move_opponent {shuffle : List Nat → List Nat} {b : Board} {i j : Nat}
    (h : b.tiles[i]? = some Tile.Empty)
    (hw : winning (placeTile b i Tile.O) = false)
    (hm : b.moves + 1 < 8)
    (hj : (shuffle (possible_moves (placeTile b i Tile.O))).head? = some j) :
    play_move shuffle b i =
      some ({ moves := b.moves + 1 + 1,
              tiles := (placeTile (placeTile b i Tile.O) j Tile.X).tiles },
        winning ({ moves := b.moves + 1 + 1,
                   tiles := (placeTile (placeTile b i Tile.O) j Tile.X).tiles } : Board)
          || (b.moves + 1 + 1) == 9) := by
  cases hwo : winning ({ moves := b.moves + 1 + 1,
                         tiles := (placeTile (placeTile b i Tile.O) j Tile.X).tiles } :
                         Board) <;>
    simp [play_move, h, Tile.is_empty, hw, hm, hj, hwo, placeTile_moves,
      possible_moves_moves_irrel, placeTile_moves_comm]

theorem play_move_opponent_panic {shuffle : List Nat → List Nat} {b : Board} {i : Nat}
    (h : b.tiles[i]? = some Tile.Empty)
    (hw : winning (placeTile b i Tile.O) = false)
    (hm : b.moves + 1 < 8)
    (hj : (shuffle (possible_moves (placeTile b i Tile.O))).head? = none) :
    play_move shuffle b i = none := by
  simp [play_move, h, Tile.is_empty, hw, hm, hj, placeTile_moves,
    possible_moves_moves_irrel]

theorem mem_of_head? {l : List Nat} {a : Nat} (h : l.head? = some a) : a ∈ l := by
  cases l with
  | nil => cases h
  | cons x t =>
    simp only [List.head?, Option.some.injEq] at h
    rw [← h]
    exact List.mem_cons_self x t

/-- Exhaustive description of the successful executions of play_move: the
occupied no-op, the immediate human win, the human move with no opponent
reply (at least 8 moves counted), and the human move followed by an
opponent move on some open cell. -/
theorem play_move_cases {shuffle : List Nat → List Nat}
    (hs : ∀ l, (shuffle l).Perm l) {b b' : Board} {i : Nat} {r : Bool}
    (hp : play_move shuffle b i = some (b', r)) :
    (b' = b ∧ ∃ t, b.tiles[i]? = some t ∧ t ≠ Tile.Empty) ∨
    (b.tiles[i]? = some Tile.Empty ∧
      ((b' = placeTile b i Tile.O ∧ winning (placeTile b i Tile.O) = true) ∨
       (winning (placeTile b i Tile.O) = false ∧ ¬ (b.moves + 1 < 8) ∧
         b' = { placeTile b i Tile.O with moves := b.moves + 1 }) ∨
       (winning (placeTile b i Tile.O) = false ∧ b.moves + 1 < 8 ∧
         ∃ j, j ∈ possible_moves (placeTile b i Tile.O) ∧
           b' = { moves := b.moves + 1 + 1,
                  tiles := (placeTile (placeTile b i Tile.O) j Tile.X).tiles }))) := by
  cases hti : b.tiles[i]? with
  | none => rw [play_move_oob hti] at hp; cases hp
  | some t =>
    by_cases hte : t = Tile.Empty
    · subst hte
      cases hw1 : winning (placeTile b i Tile.O) with
      | true =>
        rw [play_move_human_win hti hw1] at hp
        simp only [Option.some.injEq, Prod.mk.injEq] at hp
        exact Or.inr ⟨rfl, Or.inl ⟨hp.1.symm, rfl⟩⟩
      | false =>
        by_cases hm : b.moves + 1 < 8
        · cases hj : (shuffle (possible_moves (placeTile b i Tile.O))).head? with
          | none => rw [play_move_opponent_panic hti hw1 hm hj] at hp; cases hp
          | some j =>
            rw [play_move_opponent hti hw1 hm hj] at hp
            simp only [Option.some.injEq, Prod.mk.injEq] at hp
            refine Or.inr ⟨rfl, Or.inr (Or.inr ⟨rfl, hm, j, ?_, hp.1.symm⟩)⟩
            exact (hs _).mem_iff.mp (mem_of_head? hj)
        · rw [play_move_no_opponent hti hw1 hm] at hp
          simp only [Option.some.injEq, Prod.mk.injEq] at hp
          exact Or.inr ⟨rfl, Or.inr (Or.inl ⟨rfl, hm, hp.1.symm⟩)⟩
    · have hte' : t.is_empty = false := by cases t <;> simp_all [Tile.is_empty]
      rw [play_move_occupied hti hte'] at hp
      simp only [Option.some.injEq, Prod.mk.injEq] at hp
      exact Or.inl ⟨hp.1.symm, t, rfl, hte⟩

/-- A successful play_move call never changes an occupied cell: the human
tile lands on the cell checked Empty by the guard, and the opponent tile
lands on a member of possible_moves, which are Empty cells. -/
theorem play_move_preserves_occupied {shuffle : List Nat → List Nat}
    (hs : ∀ l, (shuffle l).Perm l) {b b' : Board} {i : Nat} {r : Bool}
    (hp : play_move shuffle b i = some (b', r)) :
    ∀ j, tileAt b j ≠ Tile.Empty → tileAt b' j = tileAt b j := by
  intro j hj
  rcases play_move_cases hs hp with ⟨rfl, _⟩ | ⟨hti, hcase⟩
  · rfl
  · have hemp : tileAt b i = Tile.Empty := tileAt_of_getElem? hti
    have hji : j ≠ i := fun he => hj (he ▸ hemp)
    have hb1 : tileAt (placeTile b i Tile.O) j = tileAt b j := tileAt_placeTile_ne _ hji
    rcases hcase with ⟨rfl, _⟩ | ⟨_, _, rfl⟩ | ⟨_, _, jx, hjx, rfl⟩
    · exact hb1
    · exact hb1
    · have hjjx : j ≠ jx := by
        intro he
        rcases mem_possible_moves.mp hjx with ⟨_, hxemp⟩
        rw [← he] at hxemp
        exact hj (by rw [← hb1]; exact hxemp)
      show tileAt (placeTile (placeTile b i Tile.O) jx Tile.X) j = tileAt b j
      rw [tileAt_placeTile_ne _ hjjx, hb1]

/-- One successful play_move call preserves the length of the tile array
and the relation between the move counter and the number of occupied
cells: the counter never exceeds the count, and matches it exactly on
boards with no winning line (the early return on a human win skips the
counter increment, which is why equality can fail on winning boards). -/
theorem play_move_invariant {shuffle : List Nat → List Nat}
    (hs : ∀ l, (shuffle l).Perm l) {b b' : Board} {i : Nat} {r : Bool}
    (hp : play_move shuffle b i = some (b', r))
    (hlen : b.tiles.length = 9)
    (hle : b.moves ≤ countNonEmpty b)
    (heq : winning b = false → b.moves = countNonEmpty b) :
    b'.tiles.length = 9 ∧ b'.moves ≤ countNonEmpty b' ∧
      (winning b' = false → b'.moves = countNonEmpty b') := by
  rcases play_move_cases hs hp with ⟨rfl, _⟩ | ⟨hti, hcase⟩
  · exact ⟨hlen, hle, heq⟩
  · have hemp : tileAt b i = Tile.Empty := tileAt_of_getElem? hti
    have hilt : i < b.tiles.length := index_lt_of_getElem? hti
    have hc1 : countNonEmpty (placeTile b i Tile.O) = countNonEmpty b + 1 :=
      countNonEmpty_placeTile hilt hemp (by decide)
    have hl1 : (placeTile b i Tile.O).tiles.length = 9 := by
      rw [placeTile_length]; exact hlen
    rcases hcase with ⟨rfl, hw⟩ | ⟨hw, hm, rfl⟩ | ⟨hw, hm, jx, hjx, rfl⟩
    · refine ⟨hl1, ?_, ?_⟩
      · show b.moves ≤ countNonEmpty (placeTile b i Tile.O)
        rw [hc1]; omega
      · intro hfalse
        rw [hfalse] at hw
        cases hw
    · refine ⟨hl1, ?_, ?_⟩
      · show b.moves + 1 ≤ countNonEmpty (placeTile b i Tile.O)
        rw [hc1]; omega
      · intro hfalse
        have hwb : winning b = false :=
          winning_of_place_false hemp
            (show winning (placeTile b i Tile.O) = false from hfalse)
        have hbeq := heq hwb
        show b.moves + 1 = countNonEmpty (placeTile b i Tile.O)
        rw [hc1]; omega
    · rcases mem_possible_moves.mp hjx with ⟨hjx9, hjxemp⟩
      have hjxlt : jx < (placeTile b i Tile.O).tiles.length := by omega
      have hc2 : countNonEmpty (placeTile (placeTile b i Tile.O) jx Tile.X) =
          countNonEmpty b + 2 := by
        rw [countNonEmpty_placeTile hjxlt hjxemp (by decide), hc1]
      refine ⟨?_, ?_, ?_⟩
      · show (placeTile (placeTile b i Tile.O) jx Tile.X).tiles.length = 9
        rw [placeTile_length]; exact hl1
      · show b.moves + 1 + 1 ≤ countNonEmpty (placeTile (placeTile b i Tile.O) jx Tile.X)
        rw [hc2]; omega
      · intro hfalse
        have hf2 : winning (placeTile (placeTile b i Tile.O) jx Tile.X) = false := hfalse
        have hf1 : winning (placeTile b i Tile.O) = false :=
          winning_of_place_false hjxemp hf2
        have hwb : winning b = false := winning_of_place_false hemp hf1
        have hbeq := heq hwb
        show b.moves + 1 + 1 = countNonEmpty (placeTile (placeTile b i Tile.O) jx Tile.X)
        rw [hc2]; omega

/-- The invariant of every reachable board: nine cells, and a move counter
that never exceeds, and off winning boards equals, the number of occupied
cells. -/
theorem reachable_invariant {b : Board} (hb : Reachable b) :
    b.tiles.length = 9 ∧ b.moves ≤ countNonEmpty b ∧
      (winning b = false → b.moves = countNonEmpty b) := by
  induction hb with
  | init => exact ⟨by decide, by decide, fun _ => by decide⟩
  | clear hb ih =>
    refine ⟨?_, Nat.zero_le _, fun _ => ?_⟩
    · simp only [Board.clear, List.length_map]
      exact ih.1
    · simp only [Board.clear, countNonEmpty]
      refine (List.countP_eq_zero.mpr ?_).symm
      intro a ha
      rcases List.mem_map.mp ha with ⟨x, _, rfl⟩
      simp [Tile.is_empty]
  | play shuffle i hs hb hp ih => exact play_move_invariant hs hp ih.1 ih.2.1 ih.2.2

/-! Claims. -/

/-- Board used for the counterexample to C1: four moves played, the top
row holding two human tiles with its third cell open, so the next human
move at index 2 completes the row. -/
def cexBoardC1 : Board :=
  { moves := 4,
    tiles := [Tile.O, Tile.O, Tile.Empty, Tile.X, Tile.X, Tile.Empty,
              Tile.Empty, Tile.Empty, Tile.Empty] }

/-- C1, counterexample.  On a board satisfying the move-count invariant,
a human move that completes a winning line returns from play_move before
the move counter is incremented, so moveCount increases by 0, not by 1 as
the claim requires for a winning placement. -/
theorem C1_counterexample :
    cexBoardC1.moves = countNonEmpty cexBoardC1 ∧
    tileAt cexBoardC1 2 = Tile.Empty ∧
    winning (placeTile cexBoardC1 2 Tile.O) = true ∧
    play_move id cexBoardC1 2 = some (placeTile cexBoardC1 2 Tile.O, true) ∧
    (placeTile cexBoardC1 2 Tile.O).moves ≠ cexBoardC1.moves + 1 ∧
    (placeTile cexBoardC1 2 Tile.O).moves ≠ cexBoardC1.moves + 2 := by
  decide

/-- C1, amended.  For every board satisfying the move-count invariant and
every Empty index, play_move increases moveCount by exactly 0 when the
human's placement wins (the early return skips the increment), by exactly
1 when the placement does not win and the incremented counter has reached
8 (the opponent does not move), and by exactly 2 otherwise (the opponent
then moves). -/
theorem C1_moveCount_delta {shuffle : List Nat → List Nat} {b : Board} {i : Nat}
    (hs : ∀ l, (shuffle l).Perm l)
    (hlen : b.tiles.length = 9)
    (hinv : b.moves = countNonEmpty b)
    (hi : i < 9) (hemp : tileAt b i = Tile.Empty) :
    ∃ b2 r, play_move shuffle b i = some (b2, r) ∧
      b2.moves = b.moves +
        (if winning (placeTile b i Tile.O) = true then 0
         else if b.moves + 1 < 8 then 2 else 1) := by
  have hget : b.tiles[i]? = some Tile.Empty := getElem?_tiles_of_empty hlen hi hemp
  cases hw : winning (placeTile b i Tile.O) with
  | true =>
    refine ⟨placeTile b i Tile.O, true, play_move_human_win hget hw, ?_⟩
    rw [if_pos rfl]
    rfl
  | false =>
    by_cases hm : b.moves + 1 < 8
    · have hilt : i < b.tiles.length := by omega
      have hc1 : countNonEmpty (placeTile b i Tile.O) = countNonEmpty b + 1 :=
        countNonEmpty_placeTile hilt hemp (by decide)
      have hne : possible_moves (placeTile b i Tile.O) ≠ [] := by
        refine possible_moves_ne_nil ?_ ?_
        · rw [placeTile_length]; exact hlen
        · omega
      obtain ⟨j, hj, _⟩ := shuffle_head_mem hs hne
      refine ⟨_, _, play_move_opponent hget hw hm hj, ?_⟩
      rw [if_neg (by simp), if_pos hm]
    · refine ⟨_, _, play_move_no_opponent hget hw hm, ?_⟩
      rw [if_neg (by simp), if_neg hm]

/-- C1, witness: a fresh board, human plays the centre, the opponent
replies, and the counter goes up by exactly 2. -/
theorem C1_moveCount_delta_witness :
    ∃ b2 r, play_move id initBoard 4 = some (b2, r) ∧
      b2.moves = initBoard.moves +
        (if winning (placeTile initBoard 4 Tile.O) = true then 0
         else if initBoard.moves + 1 < 8 then 2 else 1) :=
  C1_moveCount_delta (fun l => List.Perm.refl l) (by decide) (by decide)
    (by decide) (by decide)

/-- Intermediate board of the C2 counterexample trace: one human move at
index 0 and the opponent reply at index 1. -/
def bC2a : Board :=
  { moves := 2,
    tiles := [Tile.O, Tile.X, Tile.Empty, Tile.Empty, Tile.Empty,
              Tile.Empty, Tile.Empty, Tile.Empty, Tile.Empty] }

/-- Second intermediate board of the C2 counterexample trace: human at 3,
opponent reply at 2. -/
def bC2b : Board :=
  { moves := 4,
    tiles := [Tile.O, Tile.X, Tile.X, Tile.O, Tile.Empty, Tile.Empty,
              Tile.Empty, Tile.Empty, Tile.Empty] }

/-- Final board of the C2 counterexample trace: the human completes the
left column, play_move returns early, and the counter stays at 4 while 5
cells are occupied. -/
def badBoardC2 : Board :=
  { moves := 4,
    tiles := [Tile.O, Tile.X, Tile.X, Tile.O, Tile.Empty, Tile.Empty,
              Tile.O, Tile.Empty, Tile.Empty] }

/-- C2, counterexample.  A board reachable in three play_move calls from
the initial board on which moveCount is 4 but 5 cells are non-Empty: the
early return on a human win skips the counter increment. -/
theorem C2_counterexample :
    Reachable badBoardC2 ∧ badBoardC2.moves ≠ countNonEmpty badBoardC2 := by
  have hperm : ∀ l : List Nat, (id l).Perm l := fun l => List.Perm.refl l
  have h0 : play_move id initBoard 0 = some (bC2a, false) := by decide
  have h1 : play_move id bC2a 3 = some (bC2b, false) := by decide
  have h2 : play_move id bC2b 6 = some (badBoardC2, true) := by decide
  refine ⟨?_, by decide⟩
  exact Reachable.play id 6 hperm
    (Reachable.play id 3 hperm (Reachable.play id 0 hperm Reachable.init h0) h1) h2

/-- C2, amended.  Every reachable board keeps nine cells; cells are only
ever written Empty to Human or Empty to Opponent (a play_move step never
changes an occupied cell, only a full reset clears); and moveCount never
exceeds the number of non-Empty cells, with equality on every board with
no winning configuration (after a play_move whose human placement won,
the count exceeds moveCount). -/
theorem C2_reachable_invariant {b : Board} (hb : Reachable b) :
    b.tiles.length = 9 ∧ b.moves ≤ countNonEmpty b ∧
      (winning b = false → b.moves = countNonEmpty b) ∧
      (∀ shuffle i b2 r, (∀ l, (shuffle l).Perm l) →
        play_move shuffle b i = some (b2, r) →
        ∀ j, tileAt b j ≠ Tile.Empty → tileAt b2 j = tileAt b j) :=
  ⟨(reachable_invariant hb).1, (reachable_invariant hb).2.1,
   (reachable_invariant hb).2.2,
   fun _ _ _ _ hs hp => play_move_preserves_occupied hs hp⟩

/-- C2, witness at the initial board. -/
theorem C2_reachable_invariant_witness :
    initBoard.tiles.length = 9 ∧ initBoard.moves ≤ countNonEmpty initBoard :=
  ⟨(C2_reachable_invariant Reachable.init).1,
   (C2_reachable_invariant Reachable.init).2.1⟩

/-- Board used by the C3 counterexample session: a game in progress with
two occupied cells. -/
def cexBoardC3 : Board :=
  { moves := 2,
    tiles := [Tile.O, Tile.X, Tile.Empty, Tile.Empty, Tile.Empty,
              Tile.Empty, Tile.Empty, Tile.Empty, Tile.Empty] }

/-- A session in phase Playing over that board. -/
def playSessionC3 : Session := { state := GameState.Playing, board := cexBoardC3 }

/-- A session in phase Menu over the same board. -/
def menuSessionC3 : Session := { state := GameState.Menu, board := cexBoardC3 }

/-- C3, counterexample.  StartGame received while the phase is Playing,
the one command/phase combination absent from the transition table, is
not a silent no-op: the handler clears the board and then unwraps the
failing same-state transition, a panic (modelled as none), instead of
returning the unchanged session. -/
theorem C3_counterexample :
    button_click id playSessionC3 ButtonCommand.Play = none ∧
    button_click id playSessionC3 ButtonCommand.Play ≠ some (playSessionC3, false) := by
  decide

/-- C3, amended.  SelectCell delivered in any phase other than Playing is
a silent no-op leaving the phase and the Board unchanged; StartGame
delivered while the phase is Playing, however, resets the Board and fails
on the phase transition (an unwrap panic), so it is neither silent nor a
no-op. -/
theorem C3_unlisted_commands {shuffle : List Nat → List Nat} {s s2 : Session}
    {i : Nat} (hns : s.state ≠ GameState.Playing)
    (hs2 : s2.state = GameState.Playing) :
    button_click shuffle s (ButtonCommand.Grid i) = some (s, false) ∧
    button_click shuffle s2 ButtonCommand.Play = none := by
  constructor
  · simp [button_click, hns]
  · simp [button_click, hs2]

/-- C3, witness: SelectCell(3) in Menu is ignored, StartGame in Playing
panics. -/
theorem C3_unlisted_commands_witness :
    button_click id menuSessionC3 (ButtonCommand.Grid 3) = some (menuSessionC3, false) ∧
    button_click id playSessionC3 ButtonCommand.Play = none :=
  C3_unlisted_commands (by decide) (by decide)

/-- A full drawn board: nine moves counted, no winning line present. -/
def fullDrawC4 : Board :=
  { moves := 9,
    tiles := [Tile.O, Tile.X, Tile.O, Tile.O, Tile.X, Tile.X,
              Tile.X, Tile.O, Tile.O] }

/-- C4, counterexample.  play_move on an occupied cell returns the value
of moves == 9, not always the "game continues" value false: on a full
board it leaves the board unchanged but returns true. -/
theorem C4_counterexample :
    tileAt fullDrawC4 0 ≠ Tile.Empty ∧
    play_move id fullDrawC4 0 = some (fullDrawC4, true) ∧
    play_move id fullDrawC4 0 ≠ some (fullDrawC4, false) := by
  decide

/-- C4, amended.  For every board state and every in-range index holding
a non-Empty cell, play_move is a no-op that leaves the Board entirely
unchanged (all cells and moveCount) and returns moves == 9, which is the
"game continues" value false exactly when the counter is not 9. -/
theorem C4_occupied_noop {shuffle : List Nat → List Nat} {b : Board} {i : Nat}
    {t : Tile} (h : b.tiles[i]? = some t) (ht : t ≠ Tile.Empty) :
    play_move shuffle b i = some (b, b.moves == 9) :=
  play_move_occupied h (by cases t <;> simp_all [Tile.is_empty])

/-- C4, witness: selecting the occupied cell 0 of a two-move board leaves
it unchanged and reports false. -/
theorem C4_occupied_noop_witness :
    play_move id cexBoardC3 0 = some (cexBoardC3, cexBoardC3.moves == 9) :=
  C4_occupied_noop (show cexBoardC3.tiles[0]? = some Tile.O by decide) (by decide)

/-- C5, confirmed.  The win-detection function returns true exactly when
one of the 8 lines (3 rows, 3 columns, 2 diagonals) is entirely occupied
by a single player; both directions of the equivalence hold for every
board, which in particular settles each of the 8 single-line patterns
positively and every line-free board negatively. -/
theorem C5_winning_iff (b : Board) : winning b = true ↔ hasWinLine b :=
  winning_iff b

/-- Board used by the C6 scenario: the human is one move away from
completing the top row. -/
def winBoardC6 : Board :=
  { moves := 4,
    tiles := [Tile.O, Tile.O, Tile.Empty, Tile.X, Tile.X, Tile.Empty,
              Tile.Empty, Tile.Empty, Tile.Empty] }

/-- C6, confirmed.  When the human's placement completes a winning line,
play_move returns GameOver (true) at once, before any opponent move: the
resulting board is exactly the input board with the single cell i set,
every other cell untouched and the move counter unchanged. -/
theorem C6_human_win_immediate (shuffle : List Nat → List Nat) {b : Board}
    {i : Nat} (h : b.tiles[i]? = some Tile.Empty)
    (hw : winning (placeTile b i Tile.O) = true) :
    play_move shuffle b i = some (placeTile b i Tile.O, true) ∧
    (placeTile b i Tile.O).moves = b.moves ∧
    ∀ j, j ≠ i → tileAt (placeTile b i Tile.O) j = tileAt b j :=
  ⟨play_move_human_win h hw, rfl, fun _ hj => tileAt_placeTile_ne _ hj⟩

/-- C6, witness: completing the top row at index 2 returns GameOver with
no opponent tile injected. -/
theorem C6_human_win_immediate_witness :
    play_move id winBoardC6 2 = some (placeTile winBoardC6 2 Tile.O, true) ∧
    (placeTile winBoardC6 2 Tile.O).moves = winBoardC6.moves :=
  ⟨(C6_human_win_immediate id (show winBoardC6.tiles[2]? = some Tile.Empty by decide)
      (by decide)).1,
   (C6_human_win_immediate id (show winBoardC6.tiles[2]? = some Tile.Empty by decide)
      (by decide)).2.1⟩

/-- Start board of the C7 witness run. -/
def bC7 : Board :=
  { moves := 2,
    tiles := [Tile.O, Tile.X, Tile.Empty, Tile.Empty, Tile.Empty,
              Tile.Empty, Tile.Empty, Tile.Empty, Tile.Empty] }

/-- Resulting board of the C7 witness run: human at 2, opponent at 3. -/
def bC7r : Board :=
  { moves := 4,
    tiles := [Tile.O, Tile.X, Tile.O, Tile.X, Tile.Empty,
              Tile.Empty, Tile.Empty, Tile.Empty, Tile.Empty] }

/-- C7, confirmed.  In every successful play_move execution, cells that
were occupied before the call are untouched, so every Opponent tile that
appears was placed on a cell that was Empty immediately before the
placement: the opponent produces its move by shuffling the list of
currently Empty indices and never overwrites an occupied cell. -/
theorem C7_opponent_no_overwrite {shuffle : List Nat → List Nat}
    (hs : ∀ l, (shuffle l).Perm l) {b b2 : Board} {i : Nat} {r : Bool}
    (hp : play_move shuffle b i = some (b2, r)) :
    (∀ j, tileAt b j ≠ Tile.Empty → tileAt b2 j = tileAt b j) ∧
    (∀ j, tileAt b2 j = Tile.X → tileAt b j = Tile.X ∨ tileAt b j = Tile.Empty) := by
  refine ⟨play_move_preserves_occupied hs hp, fun j hx => ?_⟩
  by_cases hj : tileAt b j = Tile.Empty
  · exact Or.inr hj
  · refine Or.inl ?_
    rw [← play_move_preserves_occupied hs hp j hj]
    exact hx

/-- C7, witness: the opponent tile already at index 1 is untouched by the
next move. -/
theorem C7_opponent_no_overwrite_witness : tileAt bC7r 1 = tileAt bC7 1 :=
  (C7_opponent_no_overwrite (fun l => List.Perm.refl l)
    (show play_move id bC7 2 = some (bC7r, false) by decide)).1 1 (by decide)

/-- An arbitrary mid-game board used by the C8 witness. -/
def priorBoardC8 : Board :=
  { moves := 5,
    tiles := [Tile.O, Tile.X, Tile.O, Tile.X, Tile.O, Tile.Empty,
              Tile.Empty, Tile.Empty, Tile.Empty] }

/-- C8, confirmed.  Resetting any nine-cell board yields moveCount 0 and
all 9 cells Empty, with no failure path, and clearing twice produces the
same board as clearing once. -/
theorem C8_reset {b : Board} (hlen : b.tiles.length = 9) :
    b.clear.moves = 0 ∧ b.clear.tiles = List.replicate 9 Tile.Empty ∧
    b.clear.clear = b.clear := by
  refine ⟨rfl, ?_, ?_⟩
  · show b.tiles.map (fun _ => Tile.Empty) = List.replicate 9 Tile.Empty
    rw [List.map_const', hlen]
  · show Board.clear (Board.clear b) = Board.clear b
    simp [Board.clear, List.map_map, Function.comp]

/-- C8, witness at a five-move board. -/
theorem C8_reset_witness :
    priorBoardC8.clear.moves = 0 ∧
    priorBoardC8.clear.tiles = List.replicate 9 Tile.Empty ∧
    priorBoardC8.clear.clear = priorBoardC8.clear :=
  C8_reset (by decide)

/-- Result of the human playing the centre of a fresh board (the id
shuffle makes the opponent answer at index 0). -/
def humanMoveC9 : Board :=
  { moves := 2,
    tiles := [Tile.X, Tile.Empty, Tile.Empty, Tile.Empty, Tile.O,
              Tile.Empty, Tile.Empty, Tile.Empty, Tile.Empty] }

/-- C9, counterexample.  The human-controlled cell value is Tile::O (the
tile play_move stores at the human's index), and its glyph is "O", not an
"X"-equivalent glyph as the claim states. -/
theorem C9_counterexample :
    play_move id initBoard 4 = some (humanMoveC9, false) ∧
    tileAt humanMoveC9 4 = Tile.O ∧
    Tile.piece Tile.O = "O" ∧ Tile.piece Tile.O ≠ "X" := by
  decide

/-- C9, amended.  Tile::piece is a pure mapping sending the
human-controlled cell value Tile::O to the glyph "O", the opponent cell
value Tile::X to the glyph "X", and Empty to the empty string, as
witnessed by a human move at index 4 answered by an opponent move at
index 0. -/
theorem C9_piece_mapping :
    Tile.piece Tile.O = "O" ∧ Tile.piece Tile.X = "X" ∧
    Tile.piece Tile.Empty = "" ∧
    play_move id initBoard 4 = some (humanMoveC9, false) ∧
    tileAt humanMoveC9 4 = Tile.O ∧ tileAt humanMoveC9 0 = Tile.X := by
  decide

/-- C10, confirmed.  On a board satisfying the move-count invariant, when
play_move reaches the opponent-selection step (no human win and fewer
than 8 moves counted after the human's increment), the vector of Empty
indices is non-empty, so the element-0 access cannot fail and the whole
call returns a value. -/
theorem C10_possible_moves_nonempty {shuffle : List Nat → List Nat} {b : Board}
    {i : Nat} (hs : ∀ l, (shuffle l).Perm l)
    (hlen : b.tiles.length = 9)
    (hinv : b.moves = countNonEmpty b)
    (hi : i < 9) (hemp : tileAt b i = Tile.Empty)
    (hw : winning (placeTile b i Tile.O) = false)
    (hm : b.moves + 1 < 8) :
    possible_moves (placeTile b i Tile.O) ≠ [] ∧
    (play_move shuffle b i).isSome = true := by
  have hget : b.tiles[i]? = some Tile.Empty := getElem?_tiles_of_empty hlen hi hemp
  have hilt : i < b.tiles.length := by omega
  have hc1 : countNonEmpty (placeTile b i Tile.O) = countNonEmpty b + 1 :=
    countNonEmpty_placeTile hilt hemp (by decide)
  have hne : possible_moves (placeTile b i Tile.O) ≠ [] := by
    refine possible_moves_ne_nil ?_ ?_
    · rw [placeTile_length]; exact hlen
    · omega
  obtain ⟨j, hj, _⟩ := shuffle_head_mem hs hne
  refine ⟨hne, ?_⟩
  rw [play_move_opponent hget hw hm hj]
  rfl

/-- C10, witness at the fresh board with the human playing index 0. -/
theorem C10_possible_moves_nonempty_witness :
    possible_moves (placeTile initBoard 0 Tile.O) ≠ [] ∧
    (play_move id initBoard 0).isSome = true :=
  C10_possible_moves_nonempty (fun l => List.Perm.refl l) (by decide) (by decide)
    (by decide) (by decide) (by decide) (by decide)
